import Mathlib

/-!
Verification development for the BCI Regulatory Navigator retrieval stack
(`document_loader.py` and `search_engine.py`).

Strings are modelled as `List Char` (Python `str` code points); Python float
arithmetic is modelled by exact real arithmetic; Python `dict` iteration
order (insertion order) is modelled by explicit association lists where the
code relies on it, and by plain functions where only lookups are performed.
-/

namespace BRNav

/-! ### Character classes (Python `str.strip` / `str.split` whitespace, ASCII) -/

/-- ASCII whitespace, as stripped by Python `str.strip()` / split by `str.split()`. -/
def isSpace (c : Char) : Bool :=
  c = ' ' || c = '\t' || c = '\n' || c = '\r' || c = '\x0b' || c = '\x0c'

/-- Drop trailing characters satisfying `p`. -/
def dropRightWhile (p : Char → Bool) (l : List Char) : List Char :=
  (l.reverse.dropWhile p).reverse

/-- Python `str.strip()`: remove leading and trailing whitespace. -/
def strip (l : List Char) : List Char :=
  dropRightWhile isSpace (l.dropWhile isSpace)

/-- Accumulator pass for `wordsOf` (current partial word is kept reversed). -/
def wordsAux : List Char → List Char → List (List Char)
  | [], acc => if acc = [] then [] else [acc.reverse]
  | c :: cs, acc =>
    if isSpace c then
      if acc = [] then wordsAux cs [] else acc.reverse :: wordsAux cs []
    else wordsAux cs (c :: acc)

/-- Python `str.split()` with no argument: maximal runs of non-whitespace. -/
def wordsOf (l : List Char) : List (List Char) := wordsAux l []

/-- Consume a run of newlines (the tail of a `\n\n+` separator match). -/
def dropNewlines (l : List Char) : List Char := l.dropWhile (fun c => c = '\n')

/-- Accumulator pass for `splitParas` (current piece kept reversed).  The
first argument is recursion fuel: every step consumes at least one character,
so fuel `l.length` (as supplied by `splitParas`) never runs out, and the
fuel-exhausted branch is unreachable. -/
def splitParasAux : ℕ → List Char → List Char → List (List Char)
  | 0, _, acc => [acc.reverse]
  | _ + 1, [], acc => [acc.reverse]
  | fuel + 1, '\n' :: '\n' :: cs, acc =>
      acc.reverse :: splitParasAux fuel (dropNewlines cs) []
  | fuel + 1, c :: cs, acc => splitParasAux fuel cs (c :: acc)

/-- Model of `re.split(r'\n\n+', text)`: split at each maximal run of two or more
newlines (empty pieces are kept, as `re.split` keeps them). -/
def splitParas (l : List Char) : List (List Char) := splitParasAux l.length l []

/-! ### `document_loader.chunk_text` -/

/-- Python `s[-overlap:]` for `overlap > 0`: the last `overlap` characters
(the whole string when it is no longer than `overlap`). -/
def overlapTail (ov : ℕ) (l : List Char) : List Char := l.drop (l.length - ov)

/-- Line 83/85: `current_chunk += "\n\n" + para if current_chunk else para`. -/
def ccAppendPara (cc para : List Char) : List Char :=
  if cc = [] then para else cc ++ '\n' :: '\n' :: para

/-- Line 79: `temp_chunk[-overlap:] if overlap > 0 else ""`. -/
def tailOf (ov : ℕ) (temp : List Char) : List Char :=
  if ov > 0 then overlapTail ov temp else []

/-- One iteration of the word loop of `chunk_text` (lines 75-80 of
`document_loader.py`); state is `(chunks, temp_chunk)`. -/
def innerStep (cs ov : ℕ) (st : List (List Char) × List Char) (w : List Char) :
    List (List Char) × List Char :=
  if st.2.length + w.length + 1 > cs then
    if st.2 = [] then
      (st.1, w)
    else
      (st.1 ++ [strip st.2],
        if tailOf ov st.2 = [] then w else tailOf ov st.2 ++ ' ' :: w)
  else
    (st.1, if st.2 = [] then w else st.2 ++ ' ' :: w)

/-- Lines 63-64: emit `current_chunk.strip()` when `current_chunk` is truthy. -/
def paraChunks (chunks : List (List Char)) (cc : List Char) : List (List Char) :=
  if cc = [] then chunks else chunks ++ [strip cc]

/-- Lines 66-69: keep the overlap from the end of the emitted chunk. -/
def paraTail (ov : ℕ) (cc : List Char) : List Char :=
  if cc = [] then cc
  else if ov > 0 ∧ cc.length > ov then overlapTail ov cc else []

/-- One iteration of the paragraph loop of `chunk_text` (lines 56-85);
state is `(chunks, current_chunk)`. -/
def paraStep (cs ov : ℕ) (st : List (List Char) × List Char) (rawPara : List Char) :
    List (List Char) × List Char :=
  if strip rawPara = [] then st
  else if st.2.length + (strip rawPara).length + 2 > cs then
    if (strip rawPara).length > cs then
      (wordsOf (strip rawPara)).foldl (innerStep cs ov)
        (paraChunks st.1 st.2, paraTail ov st.2)
    else (paraChunks st.1 st.2, ccAppendPara (paraTail ov st.2) (strip rawPara))
  else (st.1, ccAppendPara st.2 (strip rawPara))

/-- Model of `document_loader.chunk_text(text, chunk_size, overlap)`. -/
def chunk_text (text : List Char) (cs ov : ℕ) : List (List Char) :=
  let r := (splitParas text).foldl (paraStep cs ov) ([], [])
  if strip r.2 = [] then r.1 else r.1 ++ [strip r.2]

/-! ### `BM25Index.tokenize`

The regex `\b[a-z0-9][-a-z0-9]*[a-z0-9]\b|\b[a-z0-9]+\b` is embedded as an
explicit scanner: a match starts at a lowercase-alphanumeric character that is
not preceded by a word character (`\b`), extends greedily through the run of
`[-a-z0-9]` characters, and backtracks to the longest prefix that ends in an
alphanumeric character followed by a non-word character (or the end). -/

/-- Character class `[a-z0-9]`. -/
def isAlnumLower (c : Char) : Bool := ('a' ≤ c && c ≤ 'z') || c.isDigit

/-- Python regex `\w` (ASCII view): letters, digits, underscore. -/
def isWordChar (c : Char) : Bool := c.isAlpha || c.isDigit || c = '_'

/-- A character that can occur inside a match of the first alternative. -/
def isRunChar (c : Char) : Bool := isAlnumLower c || c = '-'

/-- The token matched at the start of `cs`, assuming the scanner established
`\b` before `cs` and `cs` starts with `[a-z0-9]`.  Returns `none` when both
regex alternatives fail at this position. -/
def tokenAt (cs : List Char) : Option (List Char) :=
  let run := cs.takeWhile isRunChar
  let rest := cs.drop run.length
  let restOk : Bool := match rest with
    | [] => true
    | c :: _ => !(isWordChar c)
  let r1 := dropRightWhile (fun c => c = '-') run
  if r1.length = run.length then
    -- the run ends in an alphanumeric character: its boundary is at `rest`
    if restOk then some r1
    else
      -- backtrack past the last alphanumeric segment to a `-` boundary
      let r2 := dropRightWhile (fun c => c = '-') (dropRightWhile isAlnumLower r1)
      if r2 = [] then none else some r2
  else some r1

/-- Left-to-right scan of `re.findall`; the flag records whether the previous
character was a word character (so `\b` holds at the current position iff it
is `false`).  The first argument is recursion fuel: every step consumes at
least one character (a matched token is nonempty), so fuel `l.length` (as
supplied by `tokenize`) never runs out, and the fuel-exhausted branch is
unreachable. -/
def scanTok : ℕ → List Char → Bool → List (List Char)
  | 0, _, _ => []
  | _ + 1, [], _ => []
  | fuel + 1, c :: cs, prevW =>
    if !prevW && isAlnumLower c then
      match tokenAt (c :: cs) with
      | some tok => tok :: scanTok fuel (cs.drop (tok.length - 1)) true
      | none => scanTok fuel cs (isWordChar c)
    else scanTok fuel cs (isWordChar c)

/-- The stopword list of `BM25Index.__init__` (duplicates kept as in the
source; only membership is ever used). -/
def stopwords : List String :=
  ["a", "an", "and", "are", "as", "at", "be", "by", "for", "from",
   "has", "he", "in", "is", "it", "its", "of", "on", "that", "the",
   "to", "was", "were", "will", "with", "the", "this", "but", "they",
   "have", "had", "what", "when", "where", "who", "which", "why", "how",
   "all", "each", "every", "both", "few", "more", "most", "other",
   "some", "such", "no", "nor", "not", "only", "own", "same", "so",
   "than", "too", "very", "can", "just", "should", "now"]

/-- Model of `BM25Index.tokenize`: lowercase, extract words with the regex, then drop
stopwords and tokens of length at most 1. -/
def tokenize (s : String) : List String :=
  let toks := scanTok s.data.length (s.data.map Char.toLower) false
  (toks.map (fun l => String.mk l)).filter
    (fun t => !stopwords.contains t && t.length > 1)

/-! ### Data model -/

/-- Model of `document_loader.Document` (metadata modelled as string pairs; its
contents never influence indexing or search). -/
structure Document where
  id : String
  content : String
  source : String
  title : String
  chunk_index : ℕ
  metadata : List (String × String)
deriving DecidableEq

/-- Model of `search_engine.SearchResult`. -/
structure SearchResult where
  document_id : String
  content : String
  source : String
  title : String
  score : ℝ
  chunk_index : ℕ

/-- The mutable state of a `BM25Index` object.  The stopword set is a
per-instance constant that no method ever mutates, so it is kept as the global
`stopwords` rather than a field.  `inverted_index` and `doc_freqs` are dicts
used only for lookup, modelled as total functions (`defaultdict(list)` /
`Counter` defaults give `[]` / `0` for absent keys). -/
structure BM25State where
  k1 : ℝ
  b : ℝ
  documents : List Document
  doc_lengths : List ℕ
  avg_doc_length : ℝ
  inverted_index : String → List (ℕ × ℕ)
  doc_freqs : String → ℕ
  vocab : Set String

/-- The state made by `BM25Index.__init__` with default parameters. -/
noncomputable def initIndex : BM25State :=
  { k1 := 1.5, b := 0.75, documents := [], doc_lengths := [],
    avg_doc_length := 0, inverted_index := fun _ => [],
    doc_freqs := fun _ => 0, vocab := ∅ }

/-! ### `BM25Index.build_index` -/

/-- The four structures rebuilt by `build_index` (first-pass loop state). -/
structure BuildAcc where
  doc_lengths : List ℕ
  inverted_index : String → List (ℕ × ℕ)
  doc_freqs : String → ℕ
  vocab : Set String

/-- The document loop of `build_index` (lines 86-100 of `search_engine.py`);
`n` is `doc_idx`.  For each distinct term of the document one posting
`(doc_idx, freq)` is appended, the document frequency is bumped, and the term
joins the vocabulary. -/
def buildGo (n : ℕ) (acc : BuildAcc) : List Document → BuildAcc
  | [] => acc
  | d :: rest =>
    let tokens := tokenize d.content
    buildGo (n + 1)
      { doc_lengths := acc.doc_lengths ++ [tokens.length]
        inverted_index := fun t =>
          if t ∈ tokens then acc.inverted_index t ++ [(n, tokens.count t)]
          else acc.inverted_index t
        doc_freqs := fun t =>
          if t ∈ tokens then acc.doc_freqs t + 1 else acc.doc_freqs t
        vocab := acc.vocab ∪ { t | t ∈ tokens } } rest

/-- Model of `BM25Index.build_index`: reset the structures, run the first pass, then
set `avg_doc_length = sum(doc_lengths)/len(doc_lengths) if doc_lengths else 0`. -/
noncomputable def build_index (s : BM25State) (docs : List Document) : BM25State :=
  let acc := buildGo 0 ⟨[], fun _ => [], fun _ => 0, ∅⟩ docs
  { s with
    documents := docs
    doc_lengths := acc.doc_lengths
    inverted_index := acc.inverted_index
    doc_freqs := acc.doc_freqs
    vocab := acc.vocab
    avg_doc_length :=
      if acc.doc_lengths = [] then 0
      else (acc.doc_lengths.sum : ℝ) / (acc.doc_lengths.length : ℝ) }

/-! ### `BM25Index._bm25_score` and `BM25Index.search` -/

/-- The smoothed IDF of `_bm25_score` line 121:
`idf = log((num_docs - df + 0.5) / (df + 0.5) + 1)` (Python `int` arithmetic
is exact, so the subtraction is taken in `ℝ`). -/
noncomputable def idfVal (numDocs df : ℕ) : ℝ :=
  Real.log (((numDocs : ℝ) - (df : ℝ) + 0.5) / ((df : ℝ) + 0.5) + 1)

/-- The length-normalised TF factor of `_bm25_score` line 124. -/
noncomputable def tfNorm (s : BM25State) (tf docLen : ℕ) : ℝ :=
  ((tf : ℝ) * (s.k1 + 1)) /
    ((tf : ℝ) + s.k1 * (1 - s.b + s.b * (docLen : ℝ) / s.avg_doc_length))

/-- Model of `BM25Index._bm25_score(query_terms, doc_idx, doc_term_freqs)`: the loop
runs over `query_terms` (duplicates included) and skips terms absent from
`doc_term_freqs`. -/
noncomputable def bm25_score (s : BM25State) (queryTerms : List String)
    (docIdx : ℕ) (dtf : String → Option ℕ) : ℝ :=
  let docLen := s.doc_lengths.getD docIdx 0
  queryTerms.foldl
    (fun sc t =>
      match dtf t with
      | none => sc
      | some tf => sc + idfVal s.documents.length (s.doc_freqs t) * tfNorm s tf docLen)
    0

/-- Update `candidate_docs[doc_idx][term] = freq` on a `defaultdict`: insertion
order of first access is preserved, so the candidate map is an association
list keyed by `doc_idx`. -/
def candUpsert (acc : List (ℕ × (String → Option ℕ))) (i : ℕ) (t : String) (f : ℕ) :
    List (ℕ × (String → Option ℕ)) :=
  match acc with
  | [] => [(i, fun t' => if t' = t then some f else none)]
  | (j, m) :: rest =>
    if j = i then (j, fun t' => if t' = t then some f else m t') :: rest
    else (j, m) :: candUpsert rest i t f

/-- The candidate collection loop of `search` (lines 147-152): for each query
term with a posting list, record its frequency for every posted document. -/
def candidates (s : BM25State) (queryTerms : List String) :
    List (ℕ × (String → Option ℕ)) :=
  queryTerms.foldl
    (fun acc t =>
      if s.inverted_index t ≠ [] then
        (s.inverted_index t).foldl (fun acc2 p => candUpsert acc2 p.1 t p.2) acc
      else acc)
    []

/-- Scoring loop of `search` (lines 155-159): score every candidate and keep
those with a strictly positive score, in candidate-map iteration order. -/
noncomputable def scoredDocs (s : BM25State) (q : String) : List (ℕ × ℝ) :=
  ((candidates s (tokenize q)).map
    (fun c => (c.1, bm25_score s (tokenize q) c.1 c.2))).filter
    (fun p => decide (0 < p.2))

/-- The comparison of `scored_docs.sort(key=lambda x: x[1], reverse=True)`:
descending by score; Python's sort is stable for this comparison. -/
noncomputable def scoreLe (a b : ℕ × ℝ) : Bool := decide (b.2 ≤ a.2)

/-- The list `scored_docs` after the stable descending sort of line 162. -/
noncomputable def rankedDocs (s : BM25State) (q : String) : List (ℕ × ℝ) :=
  (scoredDocs s q).mergeSort scoreLe

/-- Python slice `l[:k]` for an arbitrary integer `k`: the first `k` elements
when `k ≥ 0`, and all but the last `|k|` elements when `k < 0`. -/
def pySlice {α : Type} (l : List α) (k : ℤ) : List α :=
  if 0 ≤ k then l.take k.toNat else l.take (l.length - (-k).toNat)

/-- Building one `SearchResult` from a scored pair (lines 167-175);
`self.documents[doc_idx]` is modelled with a default (search only produces
in-range ordinals). -/
def toResult (s : BM25State) (p : ℕ × ℝ) : SearchResult :=
  let doc := s.documents.getD p.1 ⟨"", "", "", "", 0, []⟩
  { document_id := doc.id, content := doc.content, source := doc.source,
    title := doc.title, score := p.2, chunk_index := doc.chunk_index }

/-- The full ranked result list before the `[:top_k]` truncation. -/
noncomputable def rankedAll (s : BM25State) (q : String) : List SearchResult :=
  if tokenize q = [] then [] else (rankedDocs s q).map (toResult s)

/-- Model of `BM25Index.search(query, top_k)`. -/
noncomputable def search (s : BM25State) (q : String) (topK : ℤ) : List SearchResult :=
  if tokenize q = [] then []
  else (pySlice (rankedDocs s q) topK).map (toResult s)

/-! ### Persistence: `BM25Index.save` / `BM25Index.load`

`save` writes two artifacts: document metadata plus `k1`/`b` as JSON, and the
index structures as a pickle.  An artifact on disk is either missing, present
but unparseable (corrupt), present and parseable but lacking the expected
keys/fields (schema mismatch), or valid.  `load` checks existence first and
returns `False` when either file is missing; afterwards any parse or schema
failure raises (`json.load` / `Document(**...)` / subscript / `pickle.load`),
which the code does not catch. -/

inductive JsonArtifact where
  | missing
  | corrupt
  | schemaMismatch
  | valid (documents : List Document) (k1 b : ℝ)

inductive PickleArtifact where
  | missing
  | corrupt
  | schemaMismatch
  | valid (doc_lengths : List ℕ) (avg_doc_length : ℝ)
      (inverted_index : String → List (ℕ × ℕ)) (doc_freqs : String → ℕ)
      (vocab : Set String)

/-- Test `index_path.exists()`. -/
def jsonExists : JsonArtifact → Bool
  | .missing => false
  | _ => true

/-- Test `embedding_path.exists()`. -/
def pickleExists : PickleArtifact → Bool
  | .missing => false
  | _ => true

/-- Model of `BM25Index.save`: both artifacts are written in full. -/
def save (s : BM25State) : JsonArtifact × PickleArtifact :=
  (.valid s.documents s.k1 s.b,
   .valid s.doc_lengths s.avg_doc_length s.inverted_index s.doc_freqs s.vocab)

/-- Model of `BM25Index.load`: `.ok none` models `return False` (a missing artifact),
`.ok (some st)` models `return True` with the index mutated to `st`, and
`.error e` models an uncaught exception `e` propagating to the caller. -/
def load (ja : JsonArtifact) (pa : PickleArtifact) :
    Except String (Option BM25State) :=
  match ja, pa with
  | .missing, _ => .ok none
  | _, .missing => .ok none
  | .corrupt, _ => .error "json.JSONDecodeError"
  | .schemaMismatch, _ => .error "KeyError"
  | .valid _ _ _, .corrupt => .error "pickle.UnpicklingError"
  | .valid _ _ _, .schemaMismatch => .error "KeyError"
  | .valid docs k1 b, .valid dl avg inv df voc =>
      .ok (some ⟨k1, b, docs, dl, avg, inv, df, voc⟩)

/-! ### `RegulatorySearchEngine.initialize`

The filesystem holds the two artifact files and the corpus that
`load_all_documents()` would read.  Console prints are modelled as an event
trace (their formatted payloads elided): an `initialize` call that performed
no rebuild and no reload would produce the empty trace. -/

inductive LogEvent where
  | buildingIndex
  | indexBuilt
  | indexSaved
  | indexLoaded
deriving DecidableEq

structure FS where
  index_art : JsonArtifact
  emb_art : PickleArtifact
  corpus : List Document

structure EngineState where
  index : BM25State
  loaded : Bool

/-- The rebuild path of `initialize` (lines 246-251): print, load documents,
build, save, mark loaded. -/
noncomputable def rebuildPath (e : EngineState) (fs : FS) :
    Except String (EngineState × FS × List LogEvent) :=
  let s := build_index e.index fs.corpus
  .ok (⟨s, true⟩, { fs with index_art := (save s).1, emb_art := (save s).2 },
    [.buildingIndex, .indexBuilt, .indexSaved])

/-- Model of `RegulatorySearchEngine.initialize(force_rebuild)`.  Note that the code
never consults `self._loaded`. -/
noncomputable def initializeEngine (forceRebuild : Bool) (e : EngineState) (fs : FS) :
    Except String (EngineState × FS × List LogEvent) :=
  if !forceRebuild && jsonExists fs.index_art && pickleExists fs.emb_art then
    match load fs.index_art fs.emb_art with
    | .error msg => .error msg
    | .ok (some s) => .ok (⟨s, true⟩, fs, [.indexLoaded])
    | .ok none => rebuildPath e fs
  else rebuildPath e fs

/-! ### Concrete instances used in counterexamples and witnesses -/

/-- A two-document corpus whose documents each contain one distinct term. -/
def docA : Document := ⟨"d0", "bbb", "s", "t", 0, []⟩

def docB : Document := ⟨"d1", "aaa", "s", "t", 0, []⟩

/-- The index built over `[docA, docB]`; querying `"aaa bbb"` gives both
documents the same BM25 score. -/
noncomputable def tieIndex : BM25State := build_index initIndex [docA, docB]

/-- The candidate term-frequency map that `search` builds for `docB` (ordinal 1). -/
def fA : String → Option ℕ := fun t' => if t' = "aaa" then some 1 else none

/-- The candidate term-frequency map that `search` builds for `docA` (ordinal 0). -/
def fB : String → Option ℕ := fun t' => if t' = "bbb" then some 1 else none

/-- An engine façade in the Ready state. -/
noncomputable def readyEngine : EngineState := ⟨initIndex, true⟩

/-- A filesystem whose artifacts are exactly those `save` would write for
`readyEngine`'s in-memory index. -/
noncomputable def syncFS : FS := ⟨(save initIndex).1, (save initIndex).2, []⟩

/-! ## Theorems -/

/-! ### Generic list facts used below -/

theorem length_dropWhile_le (p : Char → Bool) (l : List Char) :
    (l.dropWhile p).length ≤ l.length :=
  (List.dropWhile_sublist p).length_le

theorem length_dropRightWhile_le (p : Char → Bool) (l : List Char) :
    (dropRightWhile p l).length ≤ l.length := by
  unfold dropRightWhile
  rw [List.length_reverse]
  calc (l.reverse.dropWhile p).length ≤ l.reverse.length := length_dropWhile_le p l.reverse
    _ = l.length := List.length_reverse l

theorem length_strip_le (l : List Char) : (strip l).length ≤ l.length :=
  le_trans (length_dropRightWhile_le _ _) (length_dropWhile_le _ _)

theorem length_overlapTail_le (ov : ℕ) (l : List Char) :
    (overlapTail ov l).length ≤ ov := by
  unfold overlapTail
  rw [List.length_drop]
  omega

theorem foldl_const {α β : Type} (f : β → α → β) (h : ∀ b a, f b a = b) :
    ∀ (l : List α) (b : β), l.foldl f b = b
  | [], _ => rfl
  | a :: l, b => by rw [List.foldl_cons, h b a]; exact foldl_const f h l b

/-! ### Persistence -/

theorem load_save (s : BM25State) : load (save s).1 (save s).2 = .ok (some s) := rfl

/-- C5: for every index state, loading the artifacts written by `save` yields
exactly the same state — in particular the same posting-list term frequencies,
document-frequency counts, document lengths and average document length — and
therefore, `search` being a function of that state, identical scores and
ranked results for every query. -/
theorem c5_roundtrip (s : BM25State) :
    load (save s).1 (save s).2 = Except.ok (some s) :=
  load_save s

/-- C2: `load` fails soft only for missing artifacts.  When both files exist
but the JSON artifact is corrupt, `json.load` raises and the exception
propagates (first conjunct); a corrupt pickle likewise raises (second
conjunct); only a missing file produces the soft `False` return (third
conjunct).  This contradicts the claim that corrupt or mismatched artifacts
also return `False`. -/
theorem c2_load_failsoft_bug :
    load JsonArtifact.corrupt
        (PickleArtifact.valid [] 0 (fun _ => []) (fun _ => 0) ∅)
      = Except.error "json.JSONDecodeError" ∧
    load (JsonArtifact.valid [] 1.5 0.75) PickleArtifact.corrupt
      = Except.error "pickle.UnpicklingError" ∧
    load JsonArtifact.missing PickleArtifact.corrupt
      = Except.ok none ∧
    load JsonArtifact.schemaMismatch
        (PickleArtifact.valid [] 0 (fun _ => []) (fun _ => 0) ∅)
      = Except.error "KeyError" :=
  ⟨rfl, rfl, rfl, rfl⟩

/-! ### The engine façade -/

/-- C4 (counterexample): on a Ready façade with intact artifacts,
`initialize(false)` is not a no-op — it re-runs `load` (the `indexLoaded`
print event in the trace), because the code never consults `self._loaded`. -/
theorem c4_initialize_noop_counterexample :
    initializeEngine false readyEngine syncFS
      = Except.ok (readyEngine, syncFS, [LogEvent.indexLoaded]) ∧
    ([LogEvent.indexLoaded] : List LogEvent) ≠ [] :=
  ⟨rfl, by simp⟩

/-- C4 (amended): `initialize(false)` on a Ready façade re-loads the index
from disk rather than doing nothing; when the artifacts on disk are exactly
the ones `save` wrote for the in-memory index, the reload reproduces the
in-memory state, so the call is idempotent in effect though not a no-op. -/
theorem c4_initialize_ready (e : EngineState) (fs : FS) (hl : e.loaded = true)
    (hj : fs.index_art = (save e.index).1) (hp : fs.emb_art = (save e.index).2) :
    initializeEngine false e fs = Except.ok (e, fs, [LogEvent.indexLoaded]) := by
  obtain ⟨idx, ld⟩ := e
  obtain ⟨ja, pa, corp⟩ := fs
  simp only at hj hp hl
  subst hj
  subst hp
  subst hl
  rfl

theorem c4_initialize_ready_witness :
    initializeEngine false readyEngine syncFS
      = Except.ok (readyEngine, syncFS, [LogEvent.indexLoaded]) :=
  c4_initialize_ready readyEngine syncFS rfl rfl rfl

/-! ### IDF positivity -/

/-- C8: for `df ≤ N` the smoothed inverse document frequency
`ln((N - df + 0.5) / (df + 0.5) + 1)` is strictly positive. -/
theorem c8_idf_pos (N df : ℕ) (h : df ≤ N) : 0 < idfVal N df := by
  unfold idfVal
  have hden : (0 : ℝ) < (df : ℝ) + 0.5 := by positivity
  have hnum : (0 : ℝ) < (N : ℝ) - (df : ℝ) + 0.5 := by
    have hc : (df : ℝ) ≤ (N : ℝ) := Nat.cast_le.mpr h
    linarith
  have harg : 1 < ((N : ℝ) - (df : ℝ) + 0.5) / ((df : ℝ) + 0.5) + 1 := by
    have hq := div_pos hnum hden
    linarith
  exact Real.log_pos harg

theorem c8_idf_pos_witness : 0 < idfVal 2 1 :=
  c8_idf_pos 2 1 (by decide)

/-! ### Search truncation -/

/-- C9: `search(q, k)` returns at most `k` results for every `k ≥ 0`, and
`search(q, 0)` returns the empty list. -/
theorem c9_topk_bound (s : BM25State) (q : String) (k : ℤ) (hk : 0 ≤ k) :
    ((search s q k).length : ℤ) ≤ k ∧ search s q 0 = [] := by
  constructor
  · unfold search
    by_cases hq : tokenize q = []
    · simp [hq]
      omega
    · rw [if_neg hq, List.length_map]
      unfold pySlice
      rw [if_pos hk]
      calc ((List.take k.toNat (rankedDocs s q)).length : ℤ)
          ≤ (k.toNat : ℤ) := by
            rw [List.length_take]
            exact_mod_cast Nat.min_le_left _ _
        _ = k := Int.toNat_of_nonneg hk
  · unfold search
    by_cases hq : tokenize q = []
    · rw [if_pos hq]
    · rw [if_neg hq]
      unfold pySlice
      simp

/-- C10: for negative `top_k`, the Python slice `scored_docs[:top_k]` removes
the last `|top_k|` ranked entries instead of returning an empty list or
raising, so `search` returns the ranked list truncated from the end. -/
theorem c10_negative_topk (s : BM25State) (q : String) (k : ℤ) (hk : k < 0) :
    search s q k
      = (rankedAll s q).take ((rankedAll s q).length - (-k).toNat) := by
  unfold search rankedAll
  by_cases hq : tokenize q = []
  · simp [hq]
  · rw [if_neg hq, if_neg hq]
    unfold pySlice
    rw [if_neg (by omega)]
    rw [List.map_take, List.length_map]

theorem c10_negative_topk_witness :
    search initIndex "xy" (-1)
      = (rankedAll initIndex "xy").take ((rankedAll initIndex "xy").length - 1) :=
  c10_negative_topk initIndex "xy" (-1) (by decide)

theorem c9_topk_bound_witness :
    ((search initIndex "xy" 2).length : ℤ) ≤ 2 ∧ search initIndex "xy" 0 = [] :=
  c9_topk_bound initIndex "xy" 2 (by decide)

/-! ### Empty corpus -/

theorem build_nil_inverted (s : BM25State) :
    (build_index s []).inverted_index = fun _ => [] := rfl

theorem candidates_build_nil (s : BM25State) (qts : List String) :
    candidates (build_index s []) qts = [] := by
  unfold candidates
  apply foldl_const
  intro acc t
  rw [build_nil_inverted]
  simp

/-- C7: on an index built from an empty document collection the average
document length is `0`, no candidate documents are ever collected (so the
per-term scoring formula with its division by `avg_doc_length` is never
evaluated), and `search` returns the empty list for every query and `top_k`. -/
theorem c7_empty_index_search (s : BM25State) (q : String) (k : ℤ) :
    (build_index s []).avg_doc_length = 0 ∧
    candidates (build_index s []) (tokenize q) = [] ∧
    search (build_index s []) q k = [] := by
  refine ⟨rfl, candidates_build_nil s (tokenize q), ?_⟩
  unfold search
  by_cases hq : tokenize q = []
  · rw [if_pos hq]
  · rw [if_neg hq]
    have hsc : scoredDocs (build_index s []) q = [] := by
      unfold scoredDocs
      simp [candidates_build_nil]
    unfold rankedDocs
    rw [hsc]
    simp [pySlice]

/-! ### Build invariant: df counts distinct posted ordinals -/

theorem buildGo_inv (docs : List Document) :
    ∀ (n : ℕ) (acc : BuildAcc) (t : String),
      acc.doc_freqs t = (acc.inverted_index t).length →
      ((acc.inverted_index t).map Prod.fst).Pairwise (· < ·) →
      (∀ p ∈ acc.inverted_index t, p.1 < n) →
      (buildGo n acc docs).doc_freqs t
          = ((buildGo n acc docs).inverted_index t).length ∧
        (((buildGo n acc docs).inverted_index t).map Prod.fst).Pairwise (· < ·) := by
  induction docs with
  | nil =>
    intro n acc t h1 h2 h3
    exact ⟨h1, h2⟩
  | cons d rest ih =>
    intro n acc t h1 h2 h3
    rw [buildGo]
    by_cases ht : t ∈ tokenize d.content
    · apply ih (n + 1) _ t
      · simp only [ht, if_pos]
        rw [List.length_append, h1]
        simp
      · simp only [ht, if_pos, List.map_append]
        rw [List.pairwise_append]
        refine ⟨h2, by simp, ?_⟩
        intro a ha b hb
        simp only [List.map_cons, List.map_nil, List.mem_singleton] at hb
        subst hb
        rcases List.mem_map.mp ha with ⟨p, hp, hpa⟩
        subst hpa
        exact h3 p hp
      · intro p hp
        simp only [ht, if_pos, List.mem_append] at hp
        rcases hp with hp | hp
        · exact Nat.lt_trans (h3 p hp) (Nat.lt_succ_self n)
        · simp only [List.mem_singleton] at hp
          subst hp
          exact Nat.lt_succ_self n
    · apply ih (n + 1) _ t
      · simp only [ht, if_neg, ite_false]
        exact h1
      · simp only [ht, if_neg, ite_false]
        exact h2
      · intro p hp
        simp only [ht, if_neg, ite_false] at hp
        exact Nat.lt_trans (h3 p hp) (Nat.lt_succ_self n)

/-- C6: after `build_index`, every term's stored document frequency equals
the number of distinct document ordinals in its posting list (the posting
ordinals are in fact strictly increasing, hence already distinct). -/
theorem c6_df_invariant (s : BM25State) (docs : List Document) (t : String) :
    (build_index s docs).doc_freqs t
      = (((build_index s docs).inverted_index t).map Prod.fst).dedup.length := by
  have h := buildGo_inv docs 0 ⟨[], fun _ => [], fun _ => 0, ∅⟩ t rfl (by simp)
    (by simp)
  have hdf : (build_index s docs).doc_freqs
      = (buildGo 0 ⟨[], fun _ => [], fun _ => 0, ∅⟩ docs).doc_freqs := rfl
  have hinv : (build_index s docs).inverted_index
      = (buildGo 0 ⟨[], fun _ => [], fun _ => 0, ∅⟩ docs).inverted_index := rfl
  rw [hdf, hinv]
  have hnd : (((buildGo 0 ⟨[], fun _ => [], fun _ => 0, ∅⟩ docs).inverted_index t).map
      Prod.fst).Nodup :=
    h.2.imp (fun hlt => Nat.ne_of_lt hlt)
  rw [List.dedup_eq_self.mpr hnd, List.length_map]
  exact h.1

/-! ### Tie-breaking in `search` -/

theorem tok_aabb : tokenize "aaa bbb" = ["aaa", "bbb"] := rfl

theorem cand_tie : candidates tieIndex ["aaa", "bbb"] = [(1, fA), (0, fB)] := rfl

theorem score_tie_1 :
    bm25_score tieIndex ["aaa", "bbb"] 1 fA = 0 + idfVal 2 1 * tfNorm tieIndex 1 1 := rfl

theorem score_tie_0 :
    bm25_score tieIndex ["aaa", "bbb"] 0 fB = 0 + idfVal 2 1 * tfNorm tieIndex 1 1 := rfl

theorem idf_two_one : idfVal 2 1 = Real.log 2 := by
  unfold idfVal
  norm_num

theorem tfNorm_tie : tfNorm tieIndex 1 1 = 1 := by
  unfold tfNorm
  have hk : tieIndex.k1 = 1.5 := rfl
  have hb : tieIndex.b = 0.75 := rfl
  have ha : tieIndex.avg_doc_length = ((2 : ℕ) : ℝ) / ((2 : ℕ) : ℝ) := rfl
  rw [hk, hb, ha]
  push_cast
  norm_num

theorem score_tie_1_log : bm25_score tieIndex ["aaa", "bbb"] 1 fA = Real.log 2 := by
  rw [score_tie_1, idf_two_one, tfNorm_tie]
  ring

theorem score_tie_0_log : bm25_score tieIndex ["aaa", "bbb"] 0 fB = Real.log 2 := by
  rw [score_tie_0, idf_two_one, tfNorm_tie]
  ring

theorem scored_tie :
    scoredDocs tieIndex "aaa bbb" = [(1, Real.log 2), (0, Real.log 2)] := by
  have hpos : (0 : ℝ) < Real.log 2 := Real.log_pos one_lt_two
  unfold scoredDocs
  rw [tok_aabb, cand_tie]
  simp only [List.map_cons, List.map_nil]
  rw [score_tie_1_log, score_tie_0_log]
  simp [List.filter, hpos]

theorem ranked_tie :
    rankedDocs tieIndex "aaa bbb" = [(1, Real.log 2), (0, Real.log 2)] := by
  unfold rankedDocs
  rw [scored_tie]
  apply List.mergeSort_of_sorted
  refine List.pairwise_cons.mpr ⟨?_, ?_⟩
  · intro p hp
    simp only [List.mem_singleton] at hp
    subst hp
    simp [scoreLe]
  · simp

/-- C1 (counterexample): on the index over `[docA, docB]` and the two-term
query `"aaa bbb"`, both documents receive the identical score `ln 2`, yet
`search` returns ordinal 1 (`"d1"`) before ordinal 0 (`"d0"`): equal-score
candidates are *not* ordered by ascending document ordinal.  The candidate
dict is keyed in query-term order (`"aaa"` hits only document 1, `"bbb"` only
document 0) and the stable sort preserves that insertion order. -/
theorem c1_tie_order_counterexample :
    rankedDocs tieIndex "aaa bbb" = [(1, Real.log 2), (0, Real.log 2)] ∧
    search tieIndex "aaa bbb" 10 =
      [{ document_id := "d1", content := "aaa", source := "s", title := "t",
         score := Real.log 2, chunk_index := 0 },
       { document_id := "d0", content := "bbb", source := "s", title := "t",
         score := Real.log 2, chunk_index := 0 }] := by
  refine ⟨ranked_tie, ?_⟩
  unfold search
  rw [if_neg (by rw [tok_aabb]; simp), ranked_tie]
  rfl

/-- C1 (amended): when two candidates receive equal BM25 scores, `search`
keeps them in their candidate-map insertion order (documents are grouped by
the first query term whose posting list contains them, in posting-list
order) — the sort of `scored_docs` is stable — but that order is the
ascending document ordinal only when the candidate enumeration itself is
(e.g. for single-term queries), not in general. -/
theorem c1_tie_insertion_order (s : BM25State) (q : String) (a b : ℕ × ℝ)
    (heq : a.2 = b.2) (hsub : List.Sublist [a, b] (scoredDocs s q)) :
    List.Sublist [a, b] (rankedDocs s q) ∧
    List.Sublist [toResult s a, toResult s b] (rankedAll s q) := by
  have htrans : ∀ x y z : ℕ × ℝ, scoreLe x y → scoreLe y z → scoreLe x z := by
    intro x y z hxy hyz
    simp only [scoreLe, decide_eq_true_eq] at hxy hyz ⊢
    exact le_trans hyz hxy
  have htotal : ∀ x y : ℕ × ℝ, scoreLe x y || scoreLe y x := by
    intro x y
    simp only [scoreLe, Bool.or_eq_true, decide_eq_true_eq]
    exact le_total y.2 x.2
  have hpw : List.Pairwise (fun x y => scoreLe x y = true) [a, b] := by
    refine List.pairwise_cons.mpr ⟨?_, by simp⟩
    intro p hp
    simp only [List.mem_singleton] at hp
    subst hp
    simp [scoreLe, heq]
  have h1 : List.Sublist [a, b] (rankedDocs s q) :=
    List.sublist_mergeSort htrans htotal hpw hsub
  refine ⟨h1, ?_⟩
  unfold rankedAll
  have hq : ¬tokenize q = [] := by
    intro h
    have hsc : scoredDocs s q = [] := by
      unfold scoredDocs
      rw [h]
      rfl
    rw [hsc] at hsub
    exact absurd (List.sublist_nil.mp hsub) (by simp)
  rw [if_neg hq]
  exact h1.map (toResult s)

theorem c1_tie_insertion_order_witness :
    List.Sublist [((1 : ℕ), Real.log 2), ((0 : ℕ), Real.log 2)]
      (rankedDocs tieIndex "aaa bbb") :=
  (c1_tie_insertion_order tieIndex "aaa bbb" (1, Real.log 2) (0, Real.log 2) rfl
    (by rw [scored_tie])).1

/-! ### Chunk length bound -/

theorem tailOf_length_le (ov : ℕ) (temp : List Char) : (tailOf ov temp).length ≤ ov := by
  unfold tailOf
  split
  · exact length_overlapTail_le ov temp
  · simp

theorem paraTail_length_le (ov : ℕ) (cc : List Char) : (paraTail ov cc).length ≤ ov := by
  unfold paraTail
  split
  · simp_all
  · split
    · exact length_overlapTail_le ov cc
    · simp

theorem paraChunks_bound (B : ℕ) (chunks : List (List Char)) (cc : List Char)
    (hc : ∀ ch ∈ chunks, ch.length ≤ B) (ht : cc.length ≤ B) :
    ∀ ch ∈ paraChunks chunks cc, ch.length ≤ B := by
  unfold paraChunks
  split
  · exact hc
  · intro ch hch
    rcases List.mem_append.mp hch with h | h
    · exact hc ch h
    · simp only [List.mem_singleton] at h
      subst h
      exact le_trans (length_strip_le _) ht

theorem innerStep_bound (cs ov : ℕ) (st : List (List Char) × List Char)
    (w : List Char) (hwle : w.length ≤ cs)
    (hc : ∀ ch ∈ st.1, ch.length ≤ cs + ov + 2)
    (ht : st.2.length ≤ cs + ov + 1) :
    (∀ ch ∈ (innerStep cs ov st w).1, ch.length ≤ cs + ov + 2) ∧
    (innerStep cs ov st w).2.length ≤ cs + ov + 1 := by
  unfold innerStep
  by_cases h1 : st.2.length + w.length + 1 > cs
  · rw [if_pos h1]
    by_cases h2 : st.2 = []
    · rw [if_pos h2]
      exact ⟨hc, by show w.length ≤ cs + ov + 1; omega⟩
    · rw [if_neg h2]
      have htl := tailOf_length_le ov st.2
      constructor
      · intro ch hch
        rcases List.mem_append.mp hch with h | h
        · exact hc ch h
        · simp only [List.mem_singleton] at h
          subst h
          exact le_trans (length_strip_le _) (by omega)
      · split
        · show w.length ≤ cs + ov + 1
          omega
        · show (tailOf ov st.2 ++ ' ' :: w).length ≤ cs + ov + 1
          simp only [List.length_append, List.length_cons]
          omega
  · rw [if_neg h1]
    refine ⟨hc, ?_⟩
    split
    · show w.length ≤ cs + ov + 1
      omega
    · show (st.2 ++ ' ' :: w).length ≤ cs + ov + 1
      simp only [List.length_append, List.length_cons]
      omega

theorem innerLoop_bound (cs ov : ℕ) (ws : List (List Char)) :
    ∀ (chunks : List (List Char)) (temp : List Char),
      (∀ w ∈ ws, w.length ≤ cs) →
      (∀ ch ∈ chunks, ch.length ≤ cs + ov + 2) →
      temp.length ≤ cs + ov + 1 →
      (∀ ch ∈ (ws.foldl (innerStep cs ov) (chunks, temp)).1, ch.length ≤ cs + ov + 2) ∧
      (ws.foldl (innerStep cs ov) (chunks, temp)).2.length ≤ cs + ov + 1 := by
  induction ws with
  | nil =>
    intro chunks temp _ hc ht
    exact ⟨hc, ht⟩
  | cons w rest ih =>
    intro chunks temp hw hc ht
    rw [List.foldl_cons]
    have hstep := innerStep_bound cs ov (chunks, temp) w (hw w (by simp)) hc ht
    have hpair : innerStep cs ov (chunks, temp) w
        = ((innerStep cs ov (chunks, temp) w).1, (innerStep cs ov (chunks, temp) w).2) := rfl
    rw [hpair]
    exact ih _ _ (fun w' h => hw w' (by simp [h])) hstep.1 hstep.2

theorem paraStep_bound (cs ov : ℕ) (st : List (List Char) × List Char)
    (rawPara : List Char)
    (hw : ∀ w ∈ wordsOf (strip rawPara), w.length ≤ cs)
    (hc : ∀ ch ∈ st.1, ch.length ≤ cs + ov + 2)
    (ht : st.2.length ≤ cs + ov + 2) :
    (∀ ch ∈ (paraStep cs ov st rawPara).1, ch.length ≤ cs + ov + 2) ∧
    (paraStep cs ov st rawPara).2.length ≤ cs + ov + 2 := by
  unfold paraStep
  by_cases hp : strip rawPara = []
  · rw [if_pos hp]
    exact ⟨hc, ht⟩
  · rw [if_neg hp]
    by_cases hsz : st.2.length + (strip rawPara).length + 2 > cs
    · rw [if_pos hsz]
      have hpc : ∀ ch ∈ paraChunks st.1 st.2, ch.length ≤ cs + ov + 2 :=
        paraChunks_bound _ _ _ hc ht
      have hptl := paraTail_length_le ov st.2
      by_cases hbig : (strip rawPara).length > cs
      · rw [if_pos hbig]
        have h := innerLoop_bound cs ov (wordsOf (strip rawPara))
          (paraChunks st.1 st.2) (paraTail ov st.2) hw hpc (by omega)
        exact ⟨h.1, le_trans h.2 (by omega)⟩
      · rw [if_neg hbig]
        refine ⟨hpc, ?_⟩
        unfold ccAppendPara
        split
        · show (strip rawPara).length ≤ cs + ov + 2
          omega
        · show (paraTail ov st.2 ++ '\n' :: '\n' :: strip rawPara).length ≤ cs + ov + 2
          simp only [List.length_append, List.length_cons]
          omega
    · rw [if_neg hsz]
      refine ⟨hc, ?_⟩
      unfold ccAppendPara
      split
      · show (strip rawPara).length ≤ cs + ov + 2
        omega
      · show (st.2 ++ '\n' :: '\n' :: strip rawPara).length ≤ cs + ov + 2
        simp only [List.length_append, List.length_cons]
        omega

theorem chunkFold_bound (cs ov : ℕ) (ps : List (List Char)) :
    ∀ (st : List (List Char) × List Char),
      (∀ p ∈ ps, ∀ w ∈ wordsOf (strip p), w.length ≤ cs) →
      (∀ ch ∈ st.1, ch.length ≤ cs + ov + 2) →
      st.2.length ≤ cs + ov + 2 →
      (∀ ch ∈ (ps.foldl (paraStep cs ov) st).1, ch.length ≤ cs + ov + 2) ∧
      (ps.foldl (paraStep cs ov) st).2.length ≤ cs + ov + 2 := by
  induction ps with
  | nil =>
    intro st _ hc ht
    exact ⟨hc, ht⟩
  | cons p rest ih =>
    intro st hw hc ht
    rw [List.foldl_cons]
    have hstep := paraStep_bound cs ov st p (hw p (by simp)) hc ht
    exact ih _ (fun p' h => hw p' (by simp [h])) hstep.1 hstep.2

/-- C3 (amended): a chunk can exceed `max_size` — the overlap tail plus the
`"\n\n"` joiner are re-added without a size re-check — but every chunk is
bounded by `max_size + overlap + 2`, provided no whitespace-delimited word of
any paragraph is itself longer than `max_size`. -/
theorem c3_chunk_bound (text : List Char) (cs ov : ℕ) (_hcs : 0 < cs)
    (hw : ∀ p ∈ splitParas text, ∀ w ∈ wordsOf (strip p), w.length ≤ cs)
    (ch : List Char) (hch : ch ∈ chunk_text text cs ov) :
    ch.length ≤ cs + ov + 2 := by
  have h := chunkFold_bound cs ov (splitParas text) ([], []) hw (by simp) (by simp)
  simp only [chunk_text] at hch
  by_cases hr : strip ((splitParas text).foldl (paraStep cs ov) ([], [])).2 = []
  · rw [if_pos hr] at hch
    exact h.1 ch hch
  · rw [if_neg hr] at hch
    rcases List.mem_append.mp hch with h' | h'
    · exact h.1 ch h'
    · simp only [List.mem_singleton] at h'
      subst h'
      exact le_trans (length_strip_le _) h.2

/-- C3 (counterexample): with `max_size = 10` and `overlap = 5`, the text
`"abcdefgh\n\nijklmnop"` produces the chunk `"defgh\n\nijklmnop"` of length
15 > 10 even though every word in it has length at most 10: after emitting
`"abcdefgh"`, the code re-adds the 5-character overlap and then appends the
next paragraph without re-checking the size. -/
theorem c3_chunk_bound_counterexample :
    chunk_text ("abcdefgh\n\nijklmnop".data) 10 5
      = ["abcdefgh".data, "defgh\n\nijklmnop".data] ∧
    10 < ("defgh\n\nijklmnop".data).length ∧
    ((wordsOf ("defgh\n\nijklmnop".data)).all
      (fun w => decide (w.length ≤ 10))) = true := by
  refine ⟨by decide, by decide, by decide⟩

theorem c3_chunk_bound_witness : ("hello world".data).length ≤ 10 + 5 + 2 :=
  c3_chunk_bound "hello world".data 10 5 (by decide) (by decide)
    "hello world".data (by decide)

end BRNav
